import Mathlib

/-!
Verification development for the json-outliner repository (Rust):
a tokenizer (src/src/lib.rs), a recursive-descent parser (src/src/parser.rs)
and the borrowed/owned value model (src/src/value.rs), shallowly embedded.

The input text is modelled as a `List Char` (the Rust `&str` viewed as its
character sequence); byte-level slicing (`&text[range]` / `text.get(range)`)
is modelled explicitly by `byteSlice?`, which returns `none` exactly when the
Rust operation would fail (out of bounds or not on a character boundary).
Machine integers (`usize` indices) are `Nat`; `i64` parsing checks the i64
range explicitly.  Iterator-style loops are embedded with explicit fuel so
that every definition is executable and reduces in the kernel.
-/

namespace JsonOutliner

/-- `is_snakecase` from src/src/lib.rs: `c.is_ascii_alphanumeric() || c == '_'`. -/
def is_snakecase (c : Char) : Bool :=
  c.isAlphanum || c = '_'

/-- The character class `"0123456789".contains x` used by the lexer. -/
def numChars : List Char := ['0', '1', '2', '3', '4', '5', '6', '7', '8', '9']

/-- The lookahead class `"e-.0123456789".contains x` used by the lexer. -/
def numContChars : List Char :=
  ['e', '-', '.', '0', '1', '2', '3', '4', '5', '6', '7', '8', '9']

/-- Total number of UTF-8 bytes of a character list (the byte length of the
Rust `&str`). -/
def byteLen (s : List Char) : Nat := (s.map Char.utf8Size).sum

/-- Drop the characters covered by the first `a` bytes; `none` when `a` is not
a character boundary or exceeds the byte length (models the start-boundary
check of Rust string slicing). -/
def byteDrop? : List Char → Nat → Option (List Char)
  | s, 0 => some s
  | [], _ + 1 => none
  | c :: s, n + 1 =>
    if c.utf8Size ≤ n + 1 then byteDrop? s (n + 1 - c.utf8Size) else none

/-- Take the characters covered by the first `n` bytes; `none` when `n` is not
a character boundary or exceeds the byte length. -/
def byteTake? : List Char → Nat → Option (List Char)
  | _, 0 => some []
  | [], _ + 1 => none
  | c :: s, n + 1 =>
    if c.utf8Size ≤ n + 1 then (byteTake? s (n + 1 - c.utf8Size)).map (c :: ·) else none

/-- Model of Rust `text.get(start..start+len)` (and of `&text[start..start+len]`,
which panics exactly when this is `none`). -/
def byteSlice? (s : List Char) (start len : Nat) : Option (List Char) :=
  (byteDrop? s start).bind (fun t => byteTake? t len)

/-- `Span` from src/src/lib.rs: a half-open byte range `[start, start+length)`. -/
structure Span where
  start : Nat
  length : Nat
deriving Repr, DecidableEq

/-- `TokenKind` from src/src/lib.rs. -/
inductive TokenKind where
  | startMapping
  | endMapping
  | startArray
  | endArray
  | separator
  | keySeparator
  | spacing
  | tabSpacing
  | newLine
  | string
  | integer
  | boolean
  | float
  | reference
deriving Repr, DecidableEq

/-- `Token` from src/src/lib.rs; `data` is the slice of the input covered by
`span` (chosen by `byteSlice?` at construction time). -/
structure Token where
  kind : TokenKind
  span : Span
  data : List Char
deriving Repr, DecidableEq

/-- `Lexer` from src/src/lib.rs.  `idx` is the cursor of the
`Peekable<Enumerate<Chars>>` iterator: the character index of the next
character to be consumed. -/
structure Lexer where
  text : List Char
  idx : Nat
  position : Nat
  in_string : Bool
  string_escaped : Bool
  in_float : Bool
  in_number : Bool
  in_ref : Bool
  is_error : Bool
deriving Repr, DecidableEq

/-- `Lexer::new`. -/
def Lexer.new (text : List Char) : Lexer :=
  { text := text, idx := 0, position := 0, in_string := false,
    string_escaped := false, in_float := false, in_number := false,
    in_ref := false, is_error := false }

/-- Result of one `Lexer::next` call: end of stream (`None`, with the mutated
lexer), an emitted token with the mutated lexer, or a Rust panic (failed slice
index / failed `unwrap`). -/
inductive LexOut where
  | eos : Lexer → LexOut
  | tok : Token → Lexer → LexOut
  | panicked : LexOut
deriving Repr, DecidableEq

/-- Token construction (`Lexer::new_token` / `new_token_from_span`): the span
is `[position, endIdx)`, the data is the byte slice it covers (a failed slice
is a panic), flags are reset (`is_error` stays false — every emission path has
it false) and both cursors advance to `newIdx`. -/
def lexEmit (text : List Char) (position : Nat) (k : TokenKind)
    (endIdx newIdx : Nat) : LexOut :=
  match byteSlice? text position (endIdx - position) with
  | some d =>
    .tok ⟨k, ⟨position, endIdx - position⟩, d⟩
      { text := text, idx := newIdx, position := newIdx, in_string := false,
        string_escaped := false, in_float := false, in_number := false,
        in_ref := false, is_error := false }
  | none => .panicked

/-- One arm of the `match ch` statement in `Lexer::next` (src/src/lib.rs,
lines 131-227), named after what the arm does. -/
inductive LexArm where
  | escBackslash
  | escQuoteClear
  | closeString
  | openString
  | inStringSkip
  | dotError
  | dotFloat
  | numEmit
  | numCont
  | expFloat
  | tProbe
  | fProbe
  | refEmit
  | refCont
  | lbracket
  | rbracket
  | lbrace
  | rbrace
  | comma
  | colon
  | space
  | tab
  | newline
  | skip
deriving Repr, DecidableEq

/-- Arm selection of the `match ch` statement of `Lexer::next`: the guards of
the source's arms, in source order.  `peek` is `self.chars.peek()`. -/
def lexArm (ch : Char) (peek : Option Char)
    (in_string string_escaped in_float in_number in_ref : Bool) : LexArm :=
  if ch = '\\' ∧ in_string = true then .escBackslash
  else if ch = '"' ∧ string_escaped = true then .escQuoteClear
  else if ch = '"' ∧ in_string = true then .closeString
  else if ch = '"' then .openString
  else if in_string = true then .inStringSkip
  else if ch = '.' ∧ in_float = true then .dotError
  else if ch = '.' then .dotFloat
  else if in_ref = false ∧ numChars.contains ch = true ∧
      (peek.map fun p => !numContChars.contains p).getD false = true then .numEmit
  else if in_ref = false ∧ numChars.contains ch = true then .numCont
  else if ch = 'e' ∧ in_ref = false ∧ in_number = true then .expFloat
  else if ch = 't' ∧ in_ref = false then .tProbe
  else if ch = 'f' ∧ in_ref = false then .fProbe
  else if is_snakecase ch = true ∧
      (peek.map fun p => !is_snakecase p).getD false = true then .refEmit
  else if is_snakecase ch = true then .refCont
  else if ch = '[' then .lbracket
  else if ch = ']' then .rbracket
  else if ch = '{' then .lbrace
  else if ch = '}' then .rbrace
  else if ch = ',' then .comma
  else if ch = ':' then .colon
  else if ch = ' ' then .space
  else if ch = '\t' then .tab
  else if ch = '\n' then .newline
  else .skip

/-- The `while let Some((idx, ch)) = self.chars.next()` loop of `Lexer::next`
(src/src/lib.rs, lines 128-240): select the arm for the current character with
`lexArm` and perform its action.  The lexer's mutable fields are threaded as
plain parameters (the `is_error` flag is `false` throughout: `lexNext` returns
early otherwise, and the only arm that sets it exits the loop).  Fuel bounds
the number of loop iterations; `lexNext` supplies enough fuel for the whole
remaining input. -/
def lexLoop : Nat → List Char → Nat → Nat → Bool → Bool → Bool → Bool → Bool →
    LexOut
  | 0, text, idx, position, in_string, string_escaped, in_float, in_number, in_ref =>
    .eos ⟨text, idx, position, in_string, string_escaped, in_float, in_number,
      in_ref, false⟩
  | fuel + 1, text, idx, position, in_string, string_escaped, in_float, in_number, in_ref =>
    match text[idx]? with
    | none =>
      .eos ⟨text, idx, position, in_string, string_escaped, in_float, in_number,
        in_ref, false⟩
    | some ch =>
      match lexArm ch (text[idx + 1]?) in_string string_escaped in_float in_number in_ref with
      | .escBackslash =>
        lexLoop fuel text (idx + 1) position in_string true in_float in_number in_ref
      | .escQuoteClear =>
        lexLoop fuel text (idx + 1) position in_string false in_float in_number in_ref
      | .closeString => lexEmit text position .string (idx + 1) (idx + 1)
      | .openString =>
        lexLoop fuel text (idx + 1) position true string_escaped in_float in_number in_ref
      | .inStringSkip =>
        lexLoop fuel text (idx + 1) position in_string string_escaped in_float in_number in_ref
      | .dotError =>
        .eos ⟨text, idx + 1, position, in_string, string_escaped, in_float,
          in_number, in_ref, true⟩
      | .dotFloat =>
        lexLoop fuel text (idx + 1) position in_string string_escaped true in_number in_ref
      | .numEmit =>
        lexEmit text position (if in_float = true then .float else .integer)
          (idx + 1) (idx + 1)
      | .numCont =>
        lexLoop fuel text (idx + 1) position in_string string_escaped in_float true in_ref
      | .expFloat =>
        lexLoop fuel text (idx + 1) position in_string string_escaped true in_number in_ref
      | .tProbe =>
        if byteSlice? text position 4 = some ['t', 'r', 'u', 'e'] then
          if idx + 3 < text.length then
            lexEmit text position .boolean (position + 4) (idx + 4)
          else .panicked
        else lexLoop fuel text (idx + 1) position in_string string_escaped in_float in_number in_ref
      | .fProbe =>
        if byteSlice? text position 5 = some ['f', 'a', 'l', 's', 'e'] then
          if idx + 4 < text.length then
            lexEmit text position .boolean (position + 5) (idx + 5)
          else .panicked
        else lexLoop fuel text (idx + 1) position in_string string_escaped in_float in_number in_ref
      | .refEmit => lexEmit text position .reference (idx + 1) (idx + 1)
      | .refCont =>
        lexLoop fuel text (idx + 1) position in_string string_escaped in_float in_number true
      | .lbracket => lexEmit text position .startArray (idx + 1) (idx + 1)
      | .rbracket => lexEmit text position .endArray (idx + 1) (idx + 1)
      | .lbrace => lexEmit text position .startMapping (idx + 1) (idx + 1)
      | .rbrace => lexEmit text position .endMapping (idx + 1) (idx + 1)
      | .comma => lexEmit text position .separator (idx + 1) (idx + 1)
      | .colon => lexEmit text position .keySeparator (idx + 1) (idx + 1)
      | .space => lexEmit text position .spacing (idx + 1) (idx + 1)
      | .tab => lexEmit text position .tabSpacing (idx + 1) (idx + 1)
      | .newline => lexEmit text position .newLine (idx + 1) (idx + 1)
      | .skip =>
        lexLoop fuel text (idx + 1) position in_string string_escaped in_float in_number in_ref

/-- `Lexer::next` (`Iterator::next` impl): early return on the permanent error
flag, then the scan loop over the remaining characters. -/
def lexNext (l : Lexer) : LexOut :=
  if l.is_error = true then .eos l
  else
    lexLoop (l.text.length - l.idx) l.text l.idx l.position l.in_string
      l.string_escaped l.in_float l.in_number l.in_ref

/-- Collect the tokens of a lexer (stopping at end of stream or a panic);
used to state token-stream-level properties. -/
def lexList : Nat → Lexer → List Token
  | 0, _ => []
  | fuel + 1, l =>
    match lexNext l with
    | .tok t l' => t :: lexList fuel l'
    | _ => []

/-- All tokens of an input, with generous fuel. -/
def lexAll (s : List Char) : List Token :=
  lexList (s.length + 1) (Lexer.new s)

/-! ## The value model (src/src/value.rs)

`f64` payloads never matter to any claim (no claim compares float values),
so a `Number` carries the accepted literal text; `parseF64?` below models
only the success/failure of Rust's `f64::from_str`. -/

/-- `ValueRef` from src/src/value.rs: the borrowed value tree.  String
payloads are slices of the input (`List Char`); the `HashMap` of `Object` is
modelled as an association list maintained by `insertKV` (insertion
overwrites an existing key, as `HashMap::insert` does). -/
inductive ValueRef where
  | string : List Char → ValueRef
  | integer : Int → ValueRef
  | number : List Char → ValueRef
  | boolean : Bool → ValueRef
  | array : List ValueRef → ValueRef
  | object : List (List Char × ValueRef) → ValueRef
  | reference : List Char → ValueRef
  | null : ValueRef
deriving Repr

/-- `Value` from src/src/value.rs: the owned value tree; string payloads are
independent `String`s. -/
inductive Value where
  | string : String → Value
  | integer : Int → Value
  | number : List Char → Value
  | boolean : Bool → Value
  | array : List Value → Value
  | object : List (String × Value) → Value
  | reference : String → Value
  | null : Value
deriving Repr

mutual

/-- `ValueRef::to_value` from src/src/value.rs: the depth-first borrowed →
owned conversion; every string payload is duplicated (`to_string()`, here
`String.mk`) and every child converted recursively. -/
def ValueRef.to_value : ValueRef → Value
  | .string x => .string (String.mk x)
  | .integer x => .integer x
  | .number x => .number x
  | .boolean x => .boolean x
  | .array value_refs => .array (toValueList value_refs)
  | .object hash_map => .object (toValueEntries hash_map)
  | .reference x => .reference (String.mk x)
  | .null => .null

/-- The `value_refs.into_iter().map(ValueRef::to_value).collect()` of the
`Array` arm of `ValueRef::to_value`. -/
def toValueList : List ValueRef → List Value
  | [] => []
  | x :: xs => x.to_value :: toValueList xs

/-- The `hash_map.into_iter().map(|(k, v)| (k.to_string(), v.to_value()))`
of the `Object` arm of `ValueRef::to_value`. -/
def toValueEntries : List (List Char × ValueRef) → List (String × Value)
  | [] => []
  | (k, v) :: m => (String.mk k, v.to_value) :: toValueEntries m

end

/-! ## Scalar conversions and the parser (src/src/parser.rs) -/

/-- `str::trim_matches('"')`: removes every leading and trailing `'"'`. -/
def trimQuotes (s : List Char) : List Char :=
  ((s.dropWhile (· = '"')).reverse.dropWhile (· = '"')).reverse

/-- Value of a non-empty all-digit run, else `none`. -/
def digitsVal? (s : List Char) : Option Nat :=
  match s with
  | [] => none
  | ds =>
    if ds.all (fun c => numChars.contains c) then
      some (ds.foldl (fun a c => a * 10 + (c.toNat - 48)) 0)
    else none

/-- Model of Rust `str::parse::<i64>()`: optional `+`/`-` sign, one or more
ASCII digits, result within the `i64` range. -/
def parseI64? (s : List Char) : Option Int :=
  match s with
  | '+' :: rest =>
    (digitsVal? rest).bind fun n =>
      if n ≤ 9223372036854775807 then some (n : Int) else none
  | '-' :: rest =>
    (digitsVal? rest).bind fun n =>
      if n ≤ 9223372036854775808 then some (-(n : Int)) else none
  | _ =>
    (digitsVal? s).bind fun n =>
      if n ≤ 9223372036854775807 then some (n : Int) else none

/-- ASCII lowercasing of a character (for the case-insensitive special float
words of `f64::from_str`). -/
def lowerA (c : Char) : Char :=
  if 'A' ≤ c ∧ c ≤ 'Z' then Char.ofNat (c.toNat + 32) else c

/-- Mantissa part of a float literal: `digits`, `digits '.' digits*` or
`'.' digits+`. -/
def mantissaValid (m : List Char) : Bool :=
  let intPart := m.takeWhile (fun c => numChars.contains c)
  match m.drop intPart.length with
  | [] => !intPart.isEmpty
  | '.' :: frac =>
    (!intPart.isEmpty || !frac.isEmpty) && frac.all (fun c => numChars.contains c)
  | _ => false

/-- Exponent part of a float literal: optional sign then one or more digits. -/
def expValid (e : List Char) : Bool :=
  let t := match e with
    | '+' :: r => r
    | '-' :: r => r
    | r => r
  !t.isEmpty && t.all (fun c => numChars.contains c)

/-- Syntactic model of Rust `str::parse::<f64>()` success: optional sign, then
`inf`/`infinity`/`nan` (case-insensitive) or mantissa with optional exponent. -/
def f64Valid (s : List Char) : Bool :=
  let t := match s with
    | '+' :: r => r
    | '-' :: r => r
    | r => r
  let low := t.map lowerA
  if low = ['i', 'n', 'f'] ∨ low = ['i', 'n', 'f', 'i', 'n', 'i', 't', 'y'] ∨
      low = ['n', 'a', 'n'] then
    true
  else
    match t.findIdx? (fun c => c = 'e' ∨ c = 'E') with
    | none => mantissaValid t
    | some i => mantissaValid (t.take i) && expValid (t.drop (i + 1))

/-- Model of Rust `str::parse::<f64>()`: the value is represented by its
accepted literal text (no claim depends on float arithmetic). -/
def parseF64? (s : List Char) : Option (List Char) :=
  if f64Valid s then some s else none

/-- Model of Rust `str::parse::<bool>()`. -/
def parseBool? (s : List Char) : Option Bool :=
  if s = ['t', 'r', 'u', 'e'] then some true
  else if s = ['f', 'a', 'l', 's', 'e'] then some false
  else none

/-- `ErrorKind` from src/src/parser.rs. -/
inductive ErrorKind where
  | lexer
  | invalidToken
  | invalidInteger
  | invalidBoolean
  | invalidNumber
  | doubleSeparators
  | none
deriving Repr, DecidableEq

/-- Result of a parser function: `Ok(value)` together with the mutated lexer,
`Err(kind)`, a Rust panic propagated from the lexer, or fuel exhaustion of
the embedding (never reached with adequate fuel). -/
inductive PRes (α : Type) where
  | ok : α → Lexer → PRes α
  | err : ErrorKind → PRes α
  | panicked : PRes α
  | fuelOut : PRes α
deriving Repr

/-- Modelled from the spec: `Token::is_value` is called in src/src/parser.rs
but not defined under src/.  Per §4.2 ("A value-starting token (scalar
literal, `{`, or `[`)") and the grammar `value := string | integer | float |
boolean | reference | array | object`, the scalar literal kinds are String,
Integer, Float, Boolean and Reference; the argument (always `true` at the
call sites) is read as allowing Reference values. -/
def Token.is_value (t : Token) (allow_refs : Bool) : Bool :=
  match t.kind with
  | .string | .integer | .float | .boolean => true
  | .reference => allow_refs
  | _ => false

/-- Modelled from the spec: `Token::is_whitespace` is called in
src/src/parser.rs but not defined under src/.  Per §3, the whitespace token
kinds are Spacing, TabSpacing and NewLine. -/
def Token.is_whitespace (t : Token) : Bool :=
  match t.kind with
  | .spacing | .tabSpacing | .newLine => true
  | _ => false

/-- `Parser::value_string`: strips quotes, no unescaping, never fails. -/
def value_string (t : Token) : Except ErrorKind ValueRef :=
  .ok (.string (trimQuotes t.data))

/-- `Parser::value_reference`. -/
def value_reference (t : Token) : Except ErrorKind ValueRef :=
  .ok (.reference t.data)

/-- `Parser::value_integer`. -/
def value_integer (t : Token) : Except ErrorKind ValueRef :=
  match parseI64? t.data with
  | some n => .ok (.integer n)
  | Option.none => .error .invalidInteger

/-- `Parser::value_boolean`. -/
def value_boolean (t : Token) : Except ErrorKind ValueRef :=
  match parseBool? t.data with
  | some b => .ok (.boolean b)
  | Option.none => .error .invalidBoolean

/-- `Parser::value_float`. -/
def value_float (t : Token) : Except ErrorKind ValueRef :=
  match parseF64? t.data with
  | some x => .ok (.number x)
  | Option.none => .error .invalidNumber

/-- `HashMap::insert` on the association-list model: overwrite the entry with
the same key, else append. -/
def insertKV (m : List (List Char × ValueRef)) (k : List Char) (v : ValueRef) :
    List (List Char × ValueRef) :=
  match m with
  | [] => [(k, v)]
  | (k', v') :: rest =>
    if k' = k then (k', v) :: rest else (k', v') :: insertKV rest k v

mutual

/-- `Parser::to_value_inner` (src/src/parser.rs, lines 58-82): handle the
already-pulled token if any (returning early when it produced a value), then
run the token-pulling loop. -/
def to_value_inner : Nat → Lexer → Option Token → PRes ValueRef
  | 0, _, _ => .fuelOut
  | fuel + 1, l, prev =>
    match prev with
    | some token =>
      match inner_value_loop fuel l token Option.none with
      | .ok (some item) l' => .ok item l'
      | .ok Option.none l' => tviLoop fuel l' Option.none
      | .err e => .err e
      | .panicked => .panicked
      | .fuelOut => .fuelOut
    | Option.none => tviLoop fuel l Option.none

/-- The `while let Some(token) = self.lexer.next()` loop of
`Parser::to_value_inner`: no early return (that return is commented out in
the source), so a later value overwrites `item`; at end of stream the last
`item` is the result, else `ErrorKind::None`. -/
def tviLoop : Nat → Lexer → Option ValueRef → PRes ValueRef
  | 0, _, _ => .fuelOut
  | fuel + 1, l, item =>
    match lexNext l with
    | .tok token l' =>
      match inner_value_loop fuel l' token item with
      | .ok item' l'' => tviLoop fuel l'' item'
      | .err e => .err e
      | .panicked => .panicked
      | .fuelOut => .fuelOut
    | .eos l' =>
      match item with
      | some v => .ok v l'
      | Option.none => .err .none
    | .panicked => .panicked

/-- `Parser::inner_value_loop` (src/src/parser.rs, lines 84-105): dispatch on
the token kind, updating `item`. -/
def inner_value_loop : Nat → Lexer → Token → Option ValueRef →
    PRes (Option ValueRef)
  | 0, _, _, _ => .fuelOut
  | fuel + 1, l, token, item =>
    match token.kind with
    | .tabSpacing | .newLine | .spacing => .ok item l
    | .startMapping =>
      match value_mapping_loop fuel l [] Option.none false with
      | .ok v l' => .ok (some v) l'
      | .err e => .err e
      | .panicked => .panicked
      | .fuelOut => .fuelOut
    | .endMapping => .err .invalidToken
    | .startArray =>
      match value_array_loop fuel l [] false with
      | .ok v l' => .ok (some v) l'
      | .err e => .err e
      | .panicked => .panicked
      | .fuelOut => .fuelOut
    | .endArray => .err .invalidToken
    | .separator => .err .invalidToken
    | .keySeparator => .err .invalidToken
    | .string =>
      match value_string token with
      | .ok v => .ok (some v) l
      | .error e => .err e
    | .integer =>
      match value_integer token with
      | .ok v => .ok (some v) l
      | .error e => .err e
    | .boolean =>
      match value_boolean token with
      | .ok v => .ok (some v) l
      | .error e => .err e
    | .float =>
      match value_float token with
      | .ok v => .ok (some v) l
      | .error e => .err e
    | .reference =>
      match value_reference token with
      | .ok v => .ok (some v) l
      | .error e => .err e

/-- The `loop` of `Parser::value_array` (src/src/parser.rs, lines 141-181),
with the match arms in source order: double separator check, separator flag,
value-starting token, `]`, whitespace, and the catch-all `InvalidToken`
(which is also where `None` from the lexer lands). -/
def value_array_loop : Nat → Lexer → List ValueRef → Bool → PRes ValueRef
  | 0, _, _, _ => .fuelOut
  | fuel + 1, l, array, seperator =>
    match lexNext l with
    | .panicked => .panicked
    | .eos _ => .err .invalidToken
    | .tok token l' =>
      if token.kind = .separator ∧ seperator = true then
        .err .doubleSeparators
      else if token.kind = .separator then
        value_array_loop fuel l' array true
      else if token.is_value true = true ∨ token.kind = .startMapping ∨
          token.kind = .startArray then
        match to_value_inner fuel l' (some token) with
        | .ok value l'' => value_array_loop fuel l'' (array ++ [value]) false
        | .err e => .err e
        | .panicked => .panicked
        | .fuelOut => .fuelOut
      else if token.kind = .endArray then
        .ok (.array array) l'
      else if token.is_whitespace = true then
        value_array_loop fuel l' array seperator
      else .err .invalidToken

/-- The `loop` of `Parser::value_mapping` (src/src/parser.rs, lines 183-234),
with the match arms in source order: an (unguarded) String token always sets
the pending key; `:` needs a pending key; a value-starting token needs key
and key separator (neither is cleared after the insert); `,` clears both;
`}` closes; whitespace is skipped; anything else (including `None` from the
lexer) is `InvalidToken`. -/
def value_mapping_loop : Nat → Lexer → List (List Char × ValueRef) →
    Option (List Char) → Bool → PRes ValueRef
  | 0, _, _, _, _ => .fuelOut
  | fuel + 1, l, map, key, key_seperator =>
    match lexNext l with
    | .panicked => .panicked
    | .eos _ => .err .invalidToken
    | .tok token l' =>
      if token.kind = .string then
        value_mapping_loop fuel l' map (some (trimQuotes token.data)) key_seperator
      else if token.kind = .keySeparator ∧ key.isSome = true then
        value_mapping_loop fuel l' map key true
      else if key_seperator = true ∧
          (token.is_value true = true ∨ token.kind = .startMapping ∨
            token.kind = .startArray) ∧ key.isSome = true then
        match to_value_inner fuel l' (some token) with
        | .ok value l'' =>
          value_mapping_loop fuel l'' (insertKV map (key.getD []) value) key key_seperator
        | .err e => .err e
        | .panicked => .panicked
        | .fuelOut => .fuelOut
      else if token.kind = .separator then
        value_mapping_loop fuel l' map Option.none false
      else if token.kind = .endMapping then
        .ok (.object map) l'
      else if token.is_whitespace = true then
        value_mapping_loop fuel l' map key key_seperator
      else .err .invalidToken

end

/-- `Parser::to_value` (src/src/parser.rs, lines 48-56): the up-front check
of the lexer's permanent error flag, then `to_value_inner(None)`. -/
def to_value (fuel : Nat) (l : Lexer) : PRes ValueRef :=
  if l.is_error = true then .err .lexer
  else to_value_inner fuel l Option.none

/-- The caller-visible outcome of `Parser::to_value` (the returned
`Result<ValueRef, Error>`, or a panic / fuel exhaustion of the embedding). -/
inductive ParseOut where
  | ok : ValueRef → ParseOut
  | err : ErrorKind → ParseOut
  | panicked : ParseOut
  | fuelOut : ParseOut
deriving Repr

/-- `Parser::from_str(text).to_value()` with fuel ample for the input. -/
def parse (s : List Char) : ParseOut :=
  match to_value (4 * s.length + 16) (Lexer.new s) with
  | .ok v _ => .ok v
  | .err e => .err e
  | .panicked => .panicked
  | .fuelOut => .fuelOut

/-- An input whose characters are all ASCII (character indices then coincide
with byte indices). -/
def allAscii (s : List Char) : Bool :=
  s.all (fun c => decide (c.toNat < 128))

mutual

/-- Modelled from the spec (§8: "the owned tree is equal (by value) to the
borrowed tree it was converted from"): value equality across the
borrowed/owned representations — same variant, equal scalar payloads with
every string payload duplicated, elementwise equal arrays, entrywise equal
objects.  Stated independently of `ValueRef.to_value` so that the conversion
can be compared against it. -/
inductive ValueEquiv : ValueRef → Value → Prop where
  | string (s : List Char) : ValueEquiv (.string s) (.string (String.mk s))
  | integer (n : Int) : ValueEquiv (.integer n) (.integer n)
  | number (x : List Char) : ValueEquiv (.number x) (.number x)
  | boolean (b : Bool) : ValueEquiv (.boolean b) (.boolean b)
  | array {xs : List ValueRef} {ys : List Value} :
      ElemsEquiv xs ys → ValueEquiv (.array xs) (.array ys)
  | object {m : List (List Char × ValueRef)} {m' : List (String × Value)} :
      EntriesEquiv m m' → ValueEquiv (.object m) (.object m')
  | reference (s : List Char) : ValueEquiv (.reference s) (.reference (String.mk s))
  | null : ValueEquiv .null .null

/-- Elementwise `ValueEquiv` between an array's borrowed and owned elements,
in order. -/
inductive ElemsEquiv : List ValueRef → List Value → Prop where
  | nil : ElemsEquiv [] []
  | cons {x : ValueRef} {y : Value} {xs : List ValueRef} {ys : List Value} :
      ValueEquiv x y → ElemsEquiv xs ys → ElemsEquiv (x :: xs) (y :: ys)

/-- Entrywise equivalence between an object's borrowed and owned entries:
each key duplicated, each value relatd by `ValueEquiv`, in order. -/
inductive EntriesEquiv :
    List (List Char × ValueRef) → List (String × Value) → Prop where
  | nil : EntriesEquiv [] []
  | cons {k : List Char} {v : ValueRef} {v' : Value}
      {m : List (List Char × ValueRef)} {m' : List (String × Value)} :
      ValueEquiv v v' → EntriesEquiv m m' →
      EntriesEquiv ((k, v) :: m) ((String.mk k, v') :: m')

end

/-! ## Helper lemmas -/

lemma aux_byteLen_cons (c : Char) (s : List Char) :
    byteLen (c :: s) = c.utf8Size + byteLen s := by
  simp [byteLen]

lemma aux_byteTake_le :
    ∀ (t : List Char) (n : Nat) (d : List Char), byteTake? t n = some d → n ≤ byteLen t := by
  intro t
  induction t with
  | nil =>
    intro n d h
    cases n with
    | zero => exact Nat.zero_le _
    | succ m => simp [byteTake?] at h
  | cons c s ih =>
    intro n d h
    cases n with
    | zero => exact Nat.zero_le _
    | succ m =>
      unfold byteTake? at h
      split at h
      · cases hmap : byteTake? s (m + 1 - c.utf8Size) with
        | none => rw [hmap] at h; simp at h
        | some d' =>
          have hs := ih _ _ hmap
          rw [aux_byteLen_cons]
          omega
      · simp at h

lemma aux_byteDrop_len :
    ∀ (s : List Char) (a : Nat) (t : List Char),
      byteDrop? s a = some t → byteLen s = a + byteLen t := by
  intro s
  induction s with
  | nil =>
    intro a t h
    cases a with
    | zero =>
      unfold byteDrop? at h
      injection h with h
      subst h
      rfl
    | succ m => simp [byteDrop?] at h
  | cons c s ih =>
    intro a t h
    cases a with
    | zero =>
      unfold byteDrop? at h
      injection h with h
      subst h
      omega
    | succ m =>
      unfold byteDrop? at h
      split at h
      · have hs := ih _ _ h
        rw [aux_byteLen_cons]
        omega
      · simp at h

lemma aux_byteSlice_le (s : List Char) (a n : Nat) (d : List Char)
    (h : byteSlice? s a n = some d) : a + n ≤ byteLen s := by
  unfold byteSlice? at h
  cases hd : byteDrop? s a with
  | none => rw [hd] at h; simp at h
  | some t =>
    rw [hd] at h
    have h1 := aux_byteDrop_len s a t hd
    have h2 := aux_byteTake_le t n d h
    omega

lemma aux_lexEmit_tok (text : List Char) (pos : Nat) (k : TokenKind)
    (e n : Nat) (t : Token) (l' : Lexer)
    (h : lexEmit text pos k e n = .tok t l') :
    t.span.start = pos ∧ t.span.length = e - pos ∧
    byteSlice? text t.span.start t.span.length = some t.data := by
  unfold lexEmit at h
  split at h
  · rename_i d hd
    cases h
    exact ⟨rfl, rfl, hd⟩
  · cases h

lemma aux_lexLoop_tok (fuel : Nat) :
    ∀ (text : List Char) (idx pos : Nat) (s1 s2 s3 s4 s5 : Bool) (t : Token) (l' : Lexer),
      lexLoop fuel text idx pos s1 s2 s3 s4 s5 = .tok t l' →
      t.span.start + t.span.length ≤ byteLen text ∧
      byteSlice? text t.span.start t.span.length = some t.data := by
  induction fuel with
  | zero =>
    intro text idx pos s1 s2 s3 s4 s5 t l' h
    exact LexOut.noConfusion h
  | succ n ih =>
    intro text idx pos s1 s2 s3 s4 s5 t l' h
    have emit : ∀ (p : Nat) (k : TokenKind) (e m : Nat),
        lexEmit text p k e m = .tok t l' →
        t.span.start + t.span.length ≤ byteLen text ∧
        byteSlice? text t.span.start t.span.length = some t.data := by
      intro p k e m hm
      obtain ⟨h1, h2, h3⟩ := aux_lexEmit_tok text p k e m t l' hm
      exact ⟨aux_byteSlice_le _ _ _ _ h3, h3⟩
    rcases hg : text[idx]? with _ | ch
    · simp only [lexLoop, hg] at h
      exact LexOut.noConfusion h
    · rcases harm : lexArm ch (text[idx + 1]?) s1 s2 s3 s4 s5 <;>
        simp only [lexLoop, hg, harm] at h
      all_goals
        first
          | exact ih _ _ _ _ _ _ _ _ _ _ h
          | exact emit _ _ _ _ h
          | exact LexOut.noConfusion h
          | (split at h <;> first
              | (split at h <;> first
                  | exact emit _ _ _ _ h
                  | exact LexOut.noConfusion h)
              | exact ih _ _ _ _ _ _ _ _ _ _ h)

/-- The same guarantee at the `Lexer::next` interface. -/
lemma aux_lexNext_tok (l : Lexer) (t : Token) (l' : Lexer)
    (h : lexNext l = .tok t l') :
    t.span.start + t.span.length ≤ byteLen l.text ∧
    byteSlice? l.text t.span.start t.span.length = some t.data := by
  unfold lexNext at h
  split at h
  · exact LexOut.noConfusion h
  · exact aux_lexLoop_tok _ _ _ _ _ _ _ _ _ _ _ h

lemma aux_value_string_err (t : Token) (e : ErrorKind)
    (h : value_string t = .error e) : e ≠ .lexer := by
  unfold value_string at h
  exact Except.noConfusion h

lemma aux_value_reference_err (t : Token) (e : ErrorKind)
    (h : value_reference t = .error e) : e ≠ .lexer := by
  unfold value_reference at h
  exact Except.noConfusion h

lemma aux_value_integer_err (t : Token) (e : ErrorKind)
    (h : value_integer t = .error e) : e ≠ .lexer := by
  unfold value_integer at h
  split at h
  · exact Except.noConfusion h
  · injection h with h
    subst h
    decide

lemma aux_value_boolean_err (t : Token) (e : ErrorKind)
    (h : value_boolean t = .error e) : e ≠ .lexer := by
  unfold value_boolean at h
  split at h
  · exact Except.noConfusion h
  · injection h with h
    subst h
    decide

lemma aux_value_float_err (t : Token) (e : ErrorKind)
    (h : value_float t = .error e) : e ≠ .lexer := by
  unfold value_float at h
  split at h
  · exact Except.noConfusion h
  · injection h with h
    subst h
    decide

lemma aux_no_lexer_err (fuel : Nat) :
    (∀ l prev e, to_value_inner fuel l prev = .err e → e ≠ .lexer) ∧
    (∀ l item e, tviLoop fuel l item = .err e → e ≠ .lexer) ∧
    (∀ l t item e, inner_value_loop fuel l t item = .err e → e ≠ .lexer) ∧
    (∀ l arr sep e, value_array_loop fuel l arr sep = .err e → e ≠ .lexer) ∧
    (∀ l map key ks e, value_mapping_loop fuel l map key ks = .err e → e ≠ .lexer) := by
  induction fuel with
  | zero =>
    exact ⟨fun _ _ _ h => PRes.noConfusion h, fun _ _ _ h => PRes.noConfusion h,
      fun _ _ _ _ h => PRes.noConfusion h, fun _ _ _ _ h => PRes.noConfusion h,
      fun _ _ _ _ _ h => PRes.noConfusion h⟩
  | succ n ih =>
    obtain ⟨ih1, ih2, ih3, ih4, ih5⟩ := ih
    refine ⟨?_, ?_, ?_, ?_, ?_⟩
    · intro l prev e h
      unfold to_value_inner at h
      repeat' split at h
      all_goals
        first
          | exact PRes.noConfusion h
          | (injection h with h; subst h;
             first | decide | solve_by_elim [ih1, ih2, ih3, ih4, ih5, aux_value_string_err, aux_value_reference_err, aux_value_integer_err, aux_value_boolean_err, aux_value_float_err])
          | solve_by_elim [ih1, ih2, ih3, ih4, ih5, aux_value_string_err, aux_value_reference_err, aux_value_integer_err, aux_value_boolean_err, aux_value_float_err]
    · intro l item e h
      unfold tviLoop at h
      repeat' split at h
      all_goals
        first
          | exact PRes.noConfusion h
          | (injection h with h; subst h;
             first | decide | solve_by_elim [ih1, ih2, ih3, ih4, ih5, aux_value_string_err, aux_value_reference_err, aux_value_integer_err, aux_value_boolean_err, aux_value_float_err])
          | solve_by_elim [ih1, ih2, ih3, ih4, ih5, aux_value_string_err, aux_value_reference_err, aux_value_integer_err, aux_value_boolean_err, aux_value_float_err]
    · intro l t item e h
      unfold inner_value_loop at h
      repeat' split at h
      all_goals
        first
          | exact PRes.noConfusion h
          | (injection h with h; subst h;
             first | decide | solve_by_elim [ih1, ih2, ih3, ih4, ih5, aux_value_string_err, aux_value_reference_err, aux_value_integer_err, aux_value_boolean_err, aux_value_float_err])
          | solve_by_elim [ih1, ih2, ih3, ih4, ih5, aux_value_string_err, aux_value_reference_err, aux_value_integer_err, aux_value_boolean_err, aux_value_float_err]
    · intro l arr sep e h
      unfold value_array_loop at h
      repeat' split at h
      all_goals
        first
          | exact PRes.noConfusion h
          | (injection h with h; subst h;
             first | decide | solve_by_elim [ih1, ih2, ih3, ih4, ih5, aux_value_string_err, aux_value_reference_err, aux_value_integer_err, aux_value_boolean_err, aux_value_float_err])
          | solve_by_elim [ih1, ih2, ih3, ih4, ih5, aux_value_string_err, aux_value_reference_err, aux_value_integer_err, aux_value_boolean_err, aux_value_float_err]
    · intro l map key ks e h
      unfold value_mapping_loop at h
      repeat' split at h
      all_goals
        first
          | exact PRes.noConfusion h
          | (injection h with h; subst h;
             first | decide | solve_by_elim [ih1, ih2, ih3, ih4, ih5, aux_value_string_err, aux_value_reference_err, aux_value_integer_err, aux_value_boolean_err, aux_value_float_err])
          | solve_by_elim [ih1, ih2, ih3, ih4, ih5, aux_value_string_err, aux_value_reference_err, aux_value_integer_err, aux_value_boolean_err, aux_value_float_err]

lemma aux_ascii_utf8 (c : Char) (h : c.toNat < 128) : c.utf8Size = 1 := by
  unfold Char.utf8Size
  rw [if_pos]
  change c.val.toNat ≤ (0x7F : UInt32).toNat
  simpa [Char.toNat] using Nat.le_of_lt_succ h

lemma aux_ascii_byteDrop :
    ∀ (s : List Char) (a : Nat), allAscii s = true → a ≤ s.length →
      byteDrop? s a = some (s.drop a) := by
  intro s
  induction s with
  | nil =>
    intro a _ ha
    obtain rfl : a = 0 := Nat.le_zero.mp (by simpa using ha)
    rfl
  | cons c s ih =>
    intro a hall ha
    cases a with
    | zero => rfl
    | succ m =>
      simp only [allAscii, List.all_cons, Bool.and_eq_true] at hall
      have h1 : c.utf8Size = 1 := aux_ascii_utf8 c (by simpa using hall.1)
      unfold byteDrop?
      rw [if_pos (by omega)]
      rw [h1]
      simp only [Nat.add_sub_cancel]
      exact ih m (by simp [allAscii, hall.2]) (by simpa using ha)

lemma aux_ascii_byteTake :
    ∀ (s : List Char) (n : Nat), allAscii s = true → n ≤ s.length →
      byteTake? s n = some (s.take n) := by
  intro s
  induction s with
  | nil =>
    intro n _ hn
    obtain rfl : n = 0 := Nat.le_zero.mp (by simpa using hn)
    rfl
  | cons c s ih =>
    intro n hall hn
    cases n with
    | zero => rfl
    | succ m =>
      simp only [allAscii, List.all_cons, Bool.and_eq_true] at hall
      have h1 : c.utf8Size = 1 := aux_ascii_utf8 c (by simpa using hall.1)
      unfold byteTake?
      rw [if_pos (by omega)]
      rw [h1]
      simp only [Nat.add_sub_cancel]
      rw [ih m (by simp [allAscii, hall.2]) (by simpa using hn)]
      rfl

lemma aux_ascii_byteSlice (s : List Char) (a n : Nat)
    (hall : allAscii s = true) (h : a + n ≤ s.length) :
    byteSlice? s a n = some ((s.drop a).take n) := by
  unfold byteSlice?
  rw [aux_ascii_byteDrop s a hall (by omega)]
  have : allAscii (s.drop a) = true := by
    simp only [allAscii, List.all_eq_true] at hall ⊢
    intro c hc
    exact hall c (List.mem_of_mem_drop hc)
  show byteTake? (s.drop a) n = some ((s.drop a).take n)
  exact aux_ascii_byteTake (s.drop a) n this (by simp; omega)

lemma aux_snake_facts (c : Char) (h : is_snakecase c = true) :
    ¬(c = '\\') ∧ ¬(c = '"') ∧ ¬(c = '.') := by
  refine ⟨?_, ?_, ?_⟩ <;> intro hc <;> subst hc <;> exact absurd h (by decide)

lemma aux_ref_run_mid :
    ∀ (rest : List Char) (c d : Char) (post : List Char) (fuel idx pos : Nat)
      (text : List Char) (s2 s3 s4 : Bool),
      text.drop idx = c :: (rest ++ d :: post) →
      is_snakecase c = true →
      rest.all is_snakecase = true →
      is_snakecase d = false →
      lexLoop (fuel + (rest.length + 1)) text idx pos false s2 s3 s4 true =
        lexEmit text pos .reference (idx + rest.length + 1) (idx + rest.length + 1) := by
  intro rest
  induction rest with
  | nil =>
    intro c d post fuel idx pos text s2 s3 s4 hdrop hc _ hd
    obtain ⟨h1, h2, h3⟩ := aux_snake_facts c hc
    have hgc : text[idx]? = some c := by
      have := List.getElem?_drop text idx 0
      rw [hdrop] at this
      simpa using this.symm
    have hgd : text[idx + 1]? = some d := by
      have := List.getElem?_drop text idx 1
      rw [hdrop] at this
      simpa using this.symm
    have harm : lexArm c (text[idx + 1]?) false s2 s3 s4 true = .refEmit := by
      rw [hgd]
      simp [lexArm, h1, h2, h3, hc, hd]
    simp only [lexLoop, hgc, harm]
    simp
  | cons r rest ih =>
    intro c d post fuel idx pos text s2 s3 s4 hdrop hc hall hd
    obtain ⟨h1, h2, h3⟩ := aux_snake_facts c hc
    simp only [List.all_cons, Bool.and_eq_true] at hall
    have hgc : text[idx]? = some c := by
      have := List.getElem?_drop text idx 0
      rw [hdrop] at this
      simpa using this.symm
    have hgr : text[idx + 1]? = some r := by
      have := List.getElem?_drop text idx 1
      rw [hdrop] at this
      simpa using this.symm
    have harm : lexArm c (text[idx + 1]?) false s2 s3 s4 true = .refCont := by
      rw [hgr]
      simp [lexArm, h1, h2, h3, hc, hall.1]
    have hlen : fuel + ((r :: rest).length + 1) = (fuel + (rest.length + 1)) + 1 := by
      simp
      omega
    have hdrop' : text.drop (idx + 1) = r :: (rest ++ d :: post) := by
      have h9 : text.drop (idx + 1) = (text.drop idx).drop 1 := by
        rw [List.drop_drop]
      rw [h9, hdrop]
      simp
    have hstep := ih r d post fuel (idx + 1) pos text s2 s3 s4 hdrop' hall.1 hall.2 hd
    rw [hlen]
    generalize hF : fuel + (rest.length + 1) = F at hstep ⊢
    simp only [lexLoop, hgc, harm]
    rw [hstep]
    have e1 : idx + 1 + rest.length + 1 = idx + (r :: rest).length + 1 := by
      simp
      omega
    rw [e1]
lemma aux_ref_run :
    ∀ (c : Char) (rest : List Char) (d : Char) (post : List Char) (fuel idx : Nat)
      (text : List Char),
      text.drop idx = c :: (rest ++ d :: post) →
      is_snakecase c = true →
      numChars.contains c = false →
      c ≠ 't' → c ≠ 'f' →
      rest.all is_snakecase = true →
      is_snakecase d = false →
      lexLoop (fuel + (rest.length + 2)) text idx idx false false false false false =
        lexEmit text idx .reference (idx + rest.length + 1) (idx + rest.length + 1) := by
  intro c rest d post fuel idx text hdrop hc hdig hT hF hall hd
  obtain ⟨h1, h2, h3⟩ := aux_snake_facts c hc
  have hdig' : c ∉ numChars := by simpa using hdig
  have hgc : text[idx]? = some c := by
    have := List.getElem?_drop text idx 0
    rw [hdrop] at this
    simpa using this.symm
  cases rest with
  | nil =>
    have hgd : text[idx + 1]? = some d := by
      have := List.getElem?_drop text idx 1
      rw [hdrop] at this
      simpa using this.symm
    have harm : lexArm c (text[idx + 1]?) false false false false false = .refEmit := by
      rw [hgd]
      simp [lexArm, h2, h3, hc, hd, hdig', hT, hF]
    have hlen : fuel + (([] : List Char).length + 2) = (fuel + 1) + 1 := by simp
    rw [hlen]
    generalize fuel + 1 = F
    simp only [lexLoop, hgc, harm]
    simp
  | cons r rest' =>
    have hgr : text[idx + 1]? = some r := by
      have := List.getElem?_drop text idx 1
      rw [hdrop] at this
      simpa using this.symm
    simp only [List.all_cons, Bool.and_eq_true] at hall
    have harm : lexArm c (text[idx + 1]?) false false false false false = .refCont := by
      rw [hgr]
      simp [lexArm, h2, h3, hc, hdig', hT, hF, hall.1]
    have hdrop' : text.drop (idx + 1) = r :: (rest' ++ d :: post) := by
      have h9 : text.drop (idx + 1) = (text.drop idx).drop 1 := by
        rw [List.drop_drop]
      rw [h9, hdrop]
      simp
    have hstep := aux_ref_run_mid rest' r d post (fuel + 1) (idx + 1) idx text false false false
      hdrop' hall.1 hall.2 hd
    have hlen : fuel + ((r :: rest').length + 2) = ((fuel + 1) + (rest'.length + 1)) + 1 := by
      simp only [List.length_cons]
      omega
    rw [hlen]
    generalize hG : (fuel + 1) + (rest'.length + 1) = F at hstep ⊢
    simp only [lexLoop, hgc, harm]
    rw [hstep]
    have e1 : idx + 1 + rest'.length + 1 = idx + (r :: rest').length + 1 := by
      simp only [List.length_cons]
      omega
    rw [e1]

/-- C1: evaluation of the code at the claim's own inputs.  The claim (and the
repository's test `parse_integer`) says `parse("1234")` is `Integer(1234)`;
the code instead emits no token for a numeric literal at end of input (the
digit arm's lookahead uses `unwrap_or(false)`, so end of input never
terminates the literal) and every bare numeral parses to the `None` error.
Bracketed, the same numerals show the claimed lookahead classification
(Integer vs Float). -/
theorem c1_bare_numeral_eof_divergence :
    lexAll ['1', '2', '3', '4'] = [] ∧
    parse ['1', '2', '3', '4'] = .err .none ∧
    parse ['-', '2'] = .err .none ∧
    parse ['1', '2', '3', '.', '4', '5', '6'] = .err .none ∧
    parse ['3', 'e', '-', '1', '9'] = .err .none ∧
    parse ['[', '1', '2', '3', '4', ']'] = .ok (.array [.integer 1234]) ∧
    parse ['[', '-', '2', ']'] = .ok (.array [.integer (-2)]) ∧
    parse ['[', '1', '2', '3', '.', '4', '5', '6', ']'] =
      .ok (.array [.number ['1', '2', '3', '.', '4', '5', '6']]) ∧
    parse ['[', '3', 'e', '-', '1', '9', ']'] =
      .ok (.array [.number ['3', 'e', '-', '1', '9']]) :=
  ⟨rfl, rfl, rfl, rfl, rfl, rfl, rfl, rfl, rfl⟩

/-- C9: a single leading comma right after `[` is accepted, raises no error,
and contributes no element: `parse("[,1]")` is `Array[Integer(1)]`. -/
theorem c9_leading_separator_accepted :
    parse ['[', ',', '1', ']'] = .ok (.array [.integer 1]) := rfl

/-- C10: with several complete root values in sequence, `to_value` succeeds
and returns the last root, silently discarding the earlier ones:
`parse("[1] [2]")` is `Array[Integer(2)]` and `parse("true false")` is
`Boolean(false)`. -/
theorem c10_last_root_value_wins :
    parse ['[', '1', ']', ' ', '[', '2', ']'] = .ok (.array [.integer 2]) ∧
    parse ['t', 'r', 'u', 'e', ' ', 'f', 'a', 'l', 's', 'e'] = .ok (.boolean false) :=
  ⟨rfl, rfl⟩

/-- C5 counterexample: token construction can fail.  On the non-ASCII input
`éé[` the `[` token's span is the byte range `[0, 3)` (indices are character
indices misused as byte offsets), which is not on a character boundary, so
the slice indexing fails — the Rust code panics. -/
theorem c5_nonascii_slice_panics :
    lexNext (Lexer.new ['é', 'é', '[']) = .panicked ∧
    byteSlice? ['é', 'é', '['] 0 3 = none :=
  ⟨rfl, rfl⟩

/-- C5 (amended): every token the tokenizer actually emits, on any input,
satisfies `span.start + span.length ≤` the input's byte length, and its data
is exactly the input slice covered by that byte range; but construction of a
token can fail (panic) on non-ASCII input, so "never fails on any input" is
dropped. -/
theorem c5_emitted_token_span_and_data (l : Lexer) (t : Token) (l' : Lexer)
    (h : lexNext l = .tok t l') :
    t.span.start + t.span.length ≤ byteLen l.text ∧
    byteSlice? l.text t.span.start t.span.length = some t.data :=
  aux_lexNext_tok l t l' h

/-- Witness for C5 at a concrete emitted token (the `[` token of input `[`). -/
theorem c5_witness :
    (0 : Nat) + 1 ≤ byteLen ['['] ∧ byteSlice? ['['] 0 1 = some ['['] :=
  c5_emitted_token_span_and_data (Lexer.new ['['])
    ⟨.startArray, ⟨0, 1⟩, ['[']⟩
    ⟨['['], 1, 1, false, false, false, false, false, false⟩ rfl

/-- C2 counterexample: on the four-character input `"\n"` the claim says the
final quote closes the string and one String token is emitted; the code
emits no token at all (the backslash's escape flag survives the `n` and
swallows the final quote) and parsing yields the `None` error. -/
theorem c2_escaped_nonquote_counterexample :
    lexAll ['"', '\\', 'n', '"'] = [] ∧
    parse ['"', '\\', 'n', '"'] = .err .none :=
  ⟨rfl, rfl⟩

/-- C2 (amended): a backslash inside a string sets escape mode, which
persists across every following non-quote character and is cleared only by
the next `"` (consumed as escaped, without closing the string).  Hence
quote-backslash-n-quote emits no String token, while a backslash directly
before a quote escapes it, as in the repository's own test string, which is
one String token spanning the whole input, quotes included. -/
theorem c2_escape_persists_until_quote :
    (∀ (fuel : Nat) (text : List Char) (idx pos : Nat) (s3 s4 s5 : Bool) (c : Char),
      text[idx]? = some c → c ≠ '"' →
      lexLoop (fuel + 1) text idx pos true true s3 s4 s5 =
        lexLoop fuel text (idx + 1) pos true true s3 s4 s5) ∧
    (∀ (fuel : Nat) (text : List Char) (idx pos : Nat) (s3 s4 s5 : Bool),
      text[idx]? = some '"' →
      lexLoop (fuel + 1) text idx pos true true s3 s4 s5 =
        lexLoop fuel text (idx + 1) pos true false s3 s4 s5) ∧
    lexAll ['"', '\\', 'n', '"'] = [] ∧
    lexAll ['"', 'd', 'a', 't', 'a', ' ', '\\', '"', '1', '2', '3', '\\', '"', ' ', '"'] =
      [⟨.string, ⟨0, 15⟩,
        ['"', 'd', 'a', 't', 'a', ' ', '\\', '"', '1', '2', '3', '\\', '"', ' ', '"']⟩] := by
  refine ⟨?_, ?_, rfl, rfl⟩
  · intro fuel text idx pos s3 s4 s5 c hg hne
    by_cases hb : c = '\\'
    · subst hb
      have harm : lexArm '\\' (text[idx + 1]?) true true s3 s4 s5 = .escBackslash := by
        simp [lexArm]
      simp only [lexLoop, hg, harm]
    · have harm : lexArm c (text[idx + 1]?) true true s3 s4 s5 = .inStringSkip := by
        simp [lexArm, hb, hne]
      simp only [lexLoop, hg, harm]
  · intro fuel text idx pos s3 s4 s5 hg
    have harm : lexArm '"' (text[idx + 1]?) true true s3 s4 s5 = .escQuoteClear := by
      simp [lexArm]
    simp only [lexLoop, hg, harm]

/-- Witness for C2 at concrete characters: escape mode survives an `x` and
is cleared by a quote. -/
theorem c2_witness :
    lexLoop 1 ['x'] 0 0 true true false false false =
      lexLoop 0 ['x'] 1 0 true true false false false ∧
    lexLoop 1 ['"'] 0 0 true true false false false =
      lexLoop 0 ['"'] 1 0 true false false false false :=
  ⟨c2_escape_persists_until_quote.1 0 ['x'] 0 0 false false false 'x' rfl (by decide),
   c2_escape_persists_until_quote.2.1 0 ['"'] 0 0 false false false rfl⟩


/-- C3 counterexample: `parse({"a": "b"})` is the empty Object, not an
Object mapping key `a` to `String("b")` as the claim states. -/
theorem c3_string_value_counterexample :
    parse ['{', '"', 'a', '"', ':', ' ', '"', 'b', '"', '}'] = .ok (.object []) ∧
    ParseOut.ok (ValueRef.object []) ≠
      ParseOut.ok (ValueRef.object [(['a'], ValueRef.string ['b'])]) :=
  ⟨rfl, by simp⟩

/-- C3 (amended): in `value_mapping` the unguarded String arm makes every
String token set the pending key — even in value position after a colon — so
an object pair whose value is a string literal contributes no entry:
`parse({"a": "b"})` is the empty Object, while a pair with a non-string
value is inserted under the pending key: `parse({"a": 1234})` is
`Object{"a": Integer(1234)}`. -/
theorem c3_string_token_always_sets_key :
    (∀ (fuel : Nat) (l l' : Lexer) (map : List (List Char × ValueRef))
        (key : Option (List Char)) (ks : Bool) (t : Token),
      lexNext l = .tok t l' → t.kind = .string →
      value_mapping_loop (fuel + 1) l map key ks =
        value_mapping_loop fuel l' map (some (trimQuotes t.data)) ks) ∧
    parse ['{', '"', 'a', '"', ':', ' ', '"', 'b', '"', '}'] = .ok (.object []) ∧
    parse ['{', '"', 'a', '"', ':', ' ', '1', '2', '3', '4', '}'] =
      .ok (.object [(['a'], .integer 1234)]) := by
  refine ⟨?_, rfl, rfl⟩
  intro fuel l l' map key ks t hnext ht
  simp only [value_mapping_loop, hnext, ht]
  simp

/-- Witness for C3 at a concrete String token: the key becomes `k`. -/
theorem c3_witness :
    value_mapping_loop 1 (Lexer.new ['"', 'k', '"']) [] Option.none false =
      value_mapping_loop 0 ⟨['"', 'k', '"'], 3, 3, false, false, false, false, false, false⟩
        [] (some ['k']) false :=
  c3_string_token_always_sets_key.1 0 (Lexer.new ['"', 'k', '"'])
    ⟨['"', 'k', '"'], 3, 3, false, false, false, false, false, false⟩
    [] Option.none false ⟨.string, ⟨0, 3⟩, ['"', 'k', '"']⟩ rfl rfl

/-- C6: during array parsing, a Separator seen while the separator flag is
already set aborts with `DoubleSeparators` (whitespace tokens are skipped
without touching the flag), so `parse([1,,2])` and `parse([1, ,2])` fail
with `DoubleSeparators`, while a single trailing separator before `]` is
accepted: `parse([1,])` is `Array[Integer(1)]`. -/
theorem c6_double_separators :
    (∀ (fuel : Nat) (l l' : Lexer) (arr : List ValueRef) (t : Token),
      lexNext l = .tok t l' → t.kind = .separator →
      value_array_loop (fuel + 1) l arr true = .err .doubleSeparators) ∧
    (∀ (fuel : Nat) (l l' : Lexer) (arr : List ValueRef) (sep : Bool) (t : Token),
      lexNext l = .tok t l' → t.is_whitespace = true →
      value_array_loop (fuel + 1) l arr sep = value_array_loop fuel l' arr sep) ∧
    parse ['[', '1', ',', ',', '2', ']'] = .err .doubleSeparators ∧
    parse ['[', '1', ',', ' ', ',', '2', ']'] = .err .doubleSeparators ∧
    parse ['[', '1', ',', ']'] = .ok (.array [.integer 1]) := by
  refine ⟨?_, ?_, rfl, rfl, rfl⟩
  · intro fuel l l' arr t hnext ht
    simp only [value_array_loop, hnext, ht]
    simp
  · intro fuel l l' arr sep t hnext ht
    obtain ⟨k, sp, d⟩ := t
    cases k <;> simp [Token.is_whitespace] at ht <;>
      simp [value_array_loop, hnext, Token.is_value, Token.is_whitespace]

/-- Witness for C6 at concrete tokens: a second comma errors, a space is
skipped. -/
theorem c6_witness :
    value_array_loop 1 (Lexer.new [',']) [] true = .err .doubleSeparators ∧
    value_array_loop 1 (Lexer.new [' ']) [] false =
      value_array_loop 0 ⟨[' '], 1, 1, false, false, false, false, false, false⟩ [] false :=
  ⟨c6_double_separators.1 0 (Lexer.new [','])
      ⟨[','], 1, 1, false, false, false, false, false, false⟩ []
      ⟨.separator, ⟨0, 1⟩, [',']⟩ rfl rfl,
   c6_double_separators.2.1 0 (Lexer.new [' '])
      ⟨[' '], 1, 1, false, false, false, false, false, false⟩ [] false
      ⟨.spacing, ⟨0, 1⟩, [' ']⟩ rfl rfl⟩

/-- C4 counterexample: on `[1.2.3]` the tokenizer's permanent error occurs
after the parser consumed `[`, and the error returned is `InvalidToken`
(the array loop's catch-all arm), not `None` as the claim states. -/
theorem c4_midstream_error_counterexample :
    parse ['[', '1', '.', '2', '.', '3', ']'] = .err .invalidToken ∧
    ErrorKind.invalidToken ≠ ErrorKind.none :=
  ⟨rfl, by decide⟩

/-- C4 (amended): `to_value` returns error kind `Lexer` exactly when the
tokenizer's error flag is already set when it is called; a tokenizer error
encountered mid-stream surfaces as end-of-input instead — as `None` at top
level (`1.2.3`), and as `InvalidToken` inside an array (`[1.2.3]`) — never
as `Lexer`. -/
theorem c4_error_taxonomy :
    (∀ (fuel : Nat) (l : Lexer), to_value fuel l = .err .lexer ↔ l.is_error = true) ∧
    parse ['1', '.', '2', '.', '3'] = .err .none ∧
    parse ['[', '1', '.', '2', '.', '3', ']'] = .err .invalidToken := by
  refine ⟨?_, rfl, rfl⟩
  intro fuel l
  constructor
  · intro h
    unfold to_value at h
    split at h
    · assumption
    · exact absurd rfl ((aux_no_lexer_err fuel).1 l Option.none .lexer h)
  · intro h
    unfold to_value
    simp [h]

/-- C7 counterexample: the alphanumeric run `1a` begins with a character
other than `t`/`f` (the digit `1`), yet the tokenizer emits an Integer token
`1` followed by a Reference token `a` — not a single Reference covering the
run — because the digit arms fire before the reference arms while `in_ref`
is still false. -/
theorem c7_digit_run_counterexample :
    lexAll ['[', '1', 'a', ']'] =
      [⟨.startArray, ⟨0, 1⟩, ['[']⟩, ⟨.integer, ⟨1, 1⟩, ['1']⟩,
       ⟨.reference, ⟨2, 1⟩, ['a']⟩, ⟨.endArray, ⟨3, 1⟩, [']']⟩] ∧
    parse ['[', '1', 'a', ']'] = .ok (.array [.integer 1, .reference ['a']]) :=
  ⟨rfl, rfl⟩

/-- C7 (amended): for every alphanumeric/underscore run that begins with a
letter other than `t`/`f` or an underscore (not a digit), scanned from a
fresh token boundary of an ASCII input and followed by a non-run character,
the tokenizer emits one single Reference token whose data is exactly the
run — even if the run textually ends in `true`/`false`; in particular
`parse([my_reference_name_true])` is
`Array[Reference("my_reference_name_true")]`. -/
theorem c7_letter_run_single_reference :
    (∀ (l : Lexer) (c : Char) (rest : List Char) (d : Char) (post : List Char),
      allAscii l.text = true →
      l.text.drop l.idx = c :: (rest ++ d :: post) →
      l.position = l.idx →
      l.in_string = false → l.string_escaped = false → l.in_float = false →
      l.in_number = false → l.in_ref = false → l.is_error = false →
      is_snakecase c = true → numChars.contains c = false → c ≠ 't' → c ≠ 'f' →
      rest.all is_snakecase = true → is_snakecase d = false →
      lexNext l = .tok ⟨.reference, ⟨l.idx, rest.length + 1⟩, c :: rest⟩
        ⟨l.text, l.idx + rest.length + 1, l.idx + rest.length + 1,
          false, false, false, false, false, false⟩) ∧
    parse "[my_reference_name_true]".toList =
      .ok (.array [.reference "my_reference_name_true".toList]) := by
  refine ⟨?_, rfl⟩
  intro l c rest d post hascii hdrop hpos hf1 hf2 hf3 hf4 hf5 hf6 hc hdig hT hF hall hd
  obtain ⟨text, idx, pos, a1, a2, a3, a4, a5, a6⟩ := l
  simp only at hascii hdrop hpos hf1 hf2 hf3 hf4 hf5 hf6 ⊢
  subst hf1 hf2 hf3 hf4 hf5 hf6
  rw [hpos]
  have hlendrop : text.length - idx = post.length + (rest.length + 2) := by
    have h9 := congrArg List.length hdrop
    simp [List.length_drop] at h9
    omega
  unfold lexNext
  simp only [Bool.false_eq_true, if_false]
  rw [hlendrop]
  rw [aux_ref_run c rest d post post.length idx text hdrop hc hdig hT hF hall hd]
  unfold lexEmit
  have e2 : idx + rest.length + 1 - idx = rest.length + 1 := by omega
  rw [e2]
  have hbound : idx + (rest.length + 1) ≤ text.length := by omega
  rw [aux_ascii_byteSlice text idx (rest.length + 1) hascii hbound]
  have hdata : (text.drop idx).take (rest.length + 1) = c :: rest := by
    rw [hdrop]
    rw [List.take_succ_cons]
    congr 1
    exact List.take_left rest (d :: post)
  rw [hdata]

/-- Witness for C7 on the concrete run `ab` followed by `]`. -/
theorem c7_witness :
    lexNext (Lexer.new ['a', 'b', ']']) =
      .tok ⟨.reference, ⟨0, 2⟩, ['a', 'b']⟩
        ⟨['a', 'b', ']'], 2, 2, false, false, false, false, false, false⟩ :=
  c7_letter_run_single_reference.1 (Lexer.new ['a', 'b', ']']) 'a' ['b'] ']' []
    rfl rfl rfl rfl rfl rfl rfl rfl rfl (by decide) (by decide) (by decide)
    (by decide) (by decide) (by decide)
mutual

lemma aux_to_value_equiv : (v : ValueRef) → ValueEquiv v v.to_value
  | .string s => by
    rw [ValueRef.to_value]
    exact ValueEquiv.string s
  | .integer n => by
    rw [ValueRef.to_value]
    exact ValueEquiv.integer n
  | .number x => by
    rw [ValueRef.to_value]
    exact ValueEquiv.number x
  | .boolean b => by
    rw [ValueRef.to_value]
    exact ValueEquiv.boolean b
  | .array xs => by
    rw [ValueRef.to_value]
    exact ValueEquiv.array (aux_to_value_equiv_list xs)
  | .object m => by
    rw [ValueRef.to_value]
    exact ValueEquiv.object (aux_to_value_equiv_entries m)
  | .reference s => by
    rw [ValueRef.to_value]
    exact ValueEquiv.reference s
  | .null => by
    rw [ValueRef.to_value]
    exact ValueEquiv.null

lemma aux_to_value_equiv_list : (xs : List ValueRef) → ElemsEquiv xs (toValueList xs)
  | [] => by
    rw [toValueList]
    exact ElemsEquiv.nil
  | x :: xs => by
    rw [toValueList]
    exact ElemsEquiv.cons (aux_to_value_equiv x) (aux_to_value_equiv_list xs)

lemma aux_to_value_equiv_entries :
    (m : List (List Char × ValueRef)) → EntriesEquiv m (toValueEntries m)
  | [] => by
    rw [toValueEntries]
    exact EntriesEquiv.nil
  | (k, v) :: m => by
    rw [toValueEntries]
    exact EntriesEquiv.cons (aux_to_value_equiv v) (aux_to_value_equiv_entries m)

end

/-- C8: `ValueRef::to_value` is structure-preserving — every borrowed value
is `ValueEquiv`-related to its owned conversion: same variant, duplicated
string payloads, recursively converted array elements and object entries. -/
theorem c8_to_value_structure_preserving :
    ∀ (v : ValueRef), ValueEquiv v v.to_value :=
  aux_to_value_equiv

end JsonOutliner
